import Mathlib

set_option maxHeartbeats 1000000

/-!
Shallow embedding of the example-synthesis pipeline of `MediaTypeModel`
(`src/services/models/MediaType.ts`), together with models of the `Schema.ts`
helpers it calls (`collectActiveDiscriminatorSelections`,
`getSchemaWithActiveDiscriminators`, `applyDiscriminatorValues`), which are not
part of the available sources and are therefore modelled from the spec.
The external sampler (`openapi-sampler`) is kept abstract as a function
parameter, as the spec treats it as a black-box collaborator.
-/

/-- JSON-like values handled by the pipeline. Objects are ordered key/value
lists, as JavaScript objects preserve insertion order. -/
inductive JValue where
  | null
  | bool (b : Bool)
  | num (n : Int)
  | str (s : String)
  | arr (elems : List JValue)
  | obj (fields : List (String × JValue))

/-- Lookup of the first binding of a key in an association list
(JavaScript objects have unique keys; on lists with duplicate keys this
matches the visible binding). -/
def assocFind {α : Type} : List (String × α) → String → Option α
  | [], _ => none
  | (k0, v0) :: rest, k => if k0 = k then some v0 else assocFind rest k

/-- JavaScript-style keyed update on an association list: an existing key keeps
its position and gets the new value; a fresh key is appended at the end. -/
def setAssoc {α : Type} : List (String × α) → String → α → List (String × α)
  | [], k, v => [(k, v)]
  | (k0, v0) :: rest, k, v =>
    if k0 = k then (k0, v) :: rest else (k0, v0) :: setAssoc rest k v

/-- JavaScript object test (typeof gives object and the value is truthy):
true for objects and arrays, false for `null` and primitives. -/
def JValue.isObjectLike : JValue → Bool
  | .obj _ => true
  | .arr _ => true
  | _ => false

/-- Property update `value[key] = v`. On a JavaScript array a string-keyed
assignment would create a non-index property that is invisible to JSON
serialization, so on non-objects this is modelled as the identity. -/
def JValue.setField : JValue → String → JValue → JValue
  | .obj fs, k, v => .obj (setAssoc fs k v)
  | x, _, _ => x

/-- Property read `value[key]` on an object. -/
def JValue.getField : JValue → String → Option JValue
  | .obj fs, k => assocFind fs k
  | _, _ => none

/-- The slice of the redoc `SchemaModel` that the example pipeline consumes:
`title`, `discriminatorProp`, the polymorphic variant list `oneOf` with its
live selection `activeOneOf`, and the structural children (object fields and
array items) that the spec-modelled helpers traverse. -/
inductive Schema where
  | mk (title : String) (discriminatorProp : Option String)
      (oneOf : Option (List Schema)) (activeOneOf : Nat)
      (fields : List (String × Schema)) (items : Option Schema)

def Schema.title : Schema → String
  | .mk t _ _ _ _ _ => t

def Schema.discriminatorProp : Schema → Option String
  | .mk _ d _ _ _ _ => d

def Schema.oneOf : Schema → Option (List Schema)
  | .mk _ _ o _ _ _ => o

def Schema.activeOneOf : Schema → Nat
  | .mk _ _ _ a _ _ => a

def Schema.fields : Schema → List (String × Schema)
  | .mk _ _ _ _ f _ => f

def Schema.items : Schema → Option Schema
  | .mk _ _ _ _ _ i => i

/-- Clamped variant selection: `variants[activeVariantIndex]`, falling back to
the first variant when the index is out of range (spec, StaleSelection). -/
def pickVariant (v0 : Schema) (vs : List Schema) (i : Nat) : Schema :=
  (v0 :: vs).getD i v0

theorem getD_mem_or_eq {α : Type} : ∀ (l : List α) (n : Nat) (d : α),
    l.getD n d ∈ l ∨ l.getD n d = d
  | [], _, _ => Or.inr rfl
  | _ :: _, 0, _ => Or.inl (by simp [List.getD])
  | x :: xs, n + 1, d => by
    rcases getD_mem_or_eq xs n d with h | h
    · exact Or.inl (by simp [List.getD] at h ⊢; exact Or.inr (by simpa [List.getD] using h))
    · exact Or.inr (by simpa [List.getD] using h)

theorem pickVariant_mem (v0 : Schema) (vs : List Schema) (i : Nat) :
    pickVariant v0 vs i ∈ v0 :: vs := by
  unfold pickVariant
  rcases getD_mem_or_eq (v0 :: vs) i v0 with h | h
  · exact h
  · rw [h]; exact List.mem_cons_self _ _

theorem assocFind_sizeOf_lt {α : Type} [SizeOf α] :
    ∀ (l : List (String × α)) (k : String) (x : α),
    assocFind l k = some x → sizeOf x < sizeOf l
  | (k0, v0) :: rest, k, x, h => by
    by_cases hk : k0 = k
    · simp [assocFind, hk] at h
      subst h
      simp only [List.cons.sizeOf_spec, Prod.mk.sizeOf_spec]
      omega
    · simp [assocFind, hk] at h
      have := assocFind_sizeOf_lt rest k x h
      simp only [List.cons.sizeOf_spec]
      omega

theorem Schema.sizeOf_fields_lt (s : Schema) : sizeOf s.fields < sizeOf s := by
  cases s with
  | mk t d o a f i => simp only [Schema.fields, Schema.mk.sizeOf_spec]; omega

theorem Schema.sizeOf_items_lt (s : Schema) (it : Schema) (h : s.items = some it) :
    sizeOf it < sizeOf s := by
  cases s with
  | mk t d o a f i =>
    simp only [Schema.items] at h
    subst h
    simp only [Schema.mk.sizeOf_spec, Option.some.sizeOf_spec]
    omega

theorem sizeOf_lt_of_mem_getD {l : Option (List Schema)} {y : Schema}
    (h : y ∈ l.getD []) : sizeOf y < sizeOf l := by
  cases l with
  | none => simp at h
  | some xs =>
    simp only [Option.getD] at h
    have h1 := List.sizeOf_lt_of_mem h
    simp only [Option.some.sizeOf_spec]
    omega

theorem sizeOf_lt_of_mem_toList {l : Option Schema} {y : Schema}
    (h : y ∈ l.toList) : sizeOf y < sizeOf l := by
  cases l with
  | none => simp at h
  | some x =>
    simp only [Option.toList, List.mem_singleton] at h
    subst h
    simp only [Option.some.sizeOf_spec]
    omega

theorem sizeOf_snd_lt_of_mem {l : List (String × Schema)} {y : String × Schema}
    (h : y ∈ l) : sizeOf y.2 < sizeOf l := by
  have h1 := List.sizeOf_lt_of_mem h
  obtain ⟨k, v⟩ := y
  simp only [Prod.mk.sizeOf_spec] at h1
  dsimp only
  omega

/-- Modelled from the spec: `collectActiveDiscriminatorSelections` lives in
`src/services/models/Schema.ts`, which is not among the available sources.
Spec 4.1 (DependencyCollector): exhaustive depth-first traversal of every
polymorphic node reachable from the root, including all variant subtrees, not
only the active one, reading each `activeVariantIndex` so that the reactive
computation subscribes to it. The returned list is the sequence of selection
reads; callers discard it. -/
def collectActiveDiscriminatorSelections : Schema → List Nat
  | .mk _ _ o a f i =>
    (match o with | some _ => [a] | none => []) ++
    ((o.getD []).attach.map (fun x => collectActiveDiscriminatorSelections x.1)).flatten ++
    (f.attach.map (fun x => collectActiveDiscriminatorSelections x.1.2)).flatten ++
    (i.toList.attach.map (fun x => collectActiveDiscriminatorSelections x.1)).flatten
termination_by s => sizeOf s
decreasing_by
  all_goals simp_wf
  · have h1 := sizeOf_lt_of_mem_getD x.2
    omega
  · have h1 := sizeOf_snd_lt_of_mem x.2
    omega
  · have h1 := sizeOf_lt_of_mem_toList x.2
    omega

/-- Modelled from the spec: `getSchemaWithActiveDiscriminators` lives in
`src/services/models/Schema.ts`, which is not among the available sources.
Spec 4.2 (DiscriminatorResolver): a polymorphic node is replaced by its
currently active variant (first variant when the index is stale), recursively;
a non-polymorphic node keeps its structure with children resolved. Pure
function of the current selection state. -/
def getSchemaWithActiveDiscriminators : Schema → Schema
  | .mk _ _ (some (v0 :: vs)) a _ _ =>
    getSchemaWithActiveDiscriminators (pickVariant v0 vs a)
  | .mk t d o a f i =>
    .mk t d o a
      (f.attach.map (fun x => (x.1.1, getSchemaWithActiveDiscriminators x.1.2)))
      (match i with
       | some it => some (getSchemaWithActiveDiscriminators it)
       | none => none)
termination_by s => sizeOf s
decreasing_by
  all_goals simp_wf
  · have h1 := List.sizeOf_lt_of_mem (pickVariant_mem v0 vs a)
    simp only [List.cons.sizeOf_spec] at h1
    omega
  · have h1 := sizeOf_snd_lt_of_mem x.2
    omega
  · omega

/-- Discriminator write used by the patcher: when a discriminator field is
present and the value is an object, the field is set to the given tag;
otherwise the value is left alone (spec 4.4, PatchMismatch is skipped). -/
def writeDiscriminator (v : JValue) (d : Option String) (tag : String) : JValue :=
  match d, v with
  | some dp, .obj fs => .obj (setAssoc fs dp (.str tag))
  | _, _ => v

/-- Chain of root-level polymorphic unwrappings performed by the patcher: at a
polymorphic node the discriminator field of an object value is overwritten
with the tag of the active variant, and the walk continues with that variant
(spec 4.4). Returns the updated value and the first non-polymorphic schema. -/
def unwrapPoly : JValue → Schema → JValue × Schema
  | v, .mk _ d (some (v0 :: vs)) a _ _ =>
    unwrapPoly (writeDiscriminator v d (pickVariant v0 vs a).title) (pickVariant v0 vs a)
  | v, s => (v, s)
termination_by _ s => sizeOf s
decreasing_by
  simp_wf
  have h1 := List.sizeOf_lt_of_mem (pickVariant_mem v0 vs a)
  simp only [List.cons.sizeOf_spec] at h1
  omega

theorem unwrapPoly_sizeOf_le (v : JValue) (s : Schema) :
    sizeOf (unwrapPoly v s).2 ≤ sizeOf s := by
  induction v, s using unwrapPoly.induct with
  | case1 v t d v0 vs a f i ih =>
    rw [unwrapPoly]
    have h1 := List.sizeOf_lt_of_mem (pickVariant_mem v0 vs a)
    simp only [List.cons.sizeOf_spec] at h1
    simp only [Schema.mk.sizeOf_spec, Option.some.sizeOf_spec, List.cons.sizeOf_spec]
    omega
  | case2 v s h =>
    rw [unwrapPoly.eq_2]
    exact h

/-- Modelled from the spec: `applyDiscriminatorValues` lives in
`src/services/models/Schema.ts`, which is not among the available sources.
Spec 4.4 (DiscriminatorPatcher): walk the sampled value and the schema in
lockstep; wherever the schema node is polymorphic with a discriminator field
and the value there is an object, overwrite that field with the tag of the
active variant; recurse into object fields and array elements; on a
value/shape mismatch skip the subtree instead of failing. The source mutates
the value in place; the model returns the patched value. -/
def applyDiscriminatorValues (v : JValue) (s : Schema) : JValue :=
  match (unwrapPoly v s).1 with
  | .obj fs => .obj (fs.map (fun p => (p.1,
      match hf : assocFind (unwrapPoly v s).2.fields p.1 with
      | some fsch => applyDiscriminatorValues p.2 fsch
      | none => p.2)))
  | .arr xs =>
      match hi : (unwrapPoly v s).2.items with
      | some it => .arr (xs.map (fun x => applyDiscriminatorValues x it))
      | none => .arr xs
  | x => x
termination_by sizeOf s
decreasing_by
  · have h1 : sizeOf (unwrapPoly v s).2 ≤ sizeOf s := unwrapPoly_sizeOf_le v s
    have h2 := assocFind_sizeOf_lt (unwrapPoly v s).2.fields p.1 fsch hf
    have h3 := Schema.sizeOf_fields_lt (unwrapPoly v s).2
    omega
  · have h1 : sizeOf (unwrapPoly v s).2 ≤ sizeOf s := unwrapPoly_sizeOf_le v s
    have h2 := Schema.sizeOf_items_lt (unwrapPoly v s).2 it hi
    omega

/-- Options handed to the external sampler, mirroring the `samplerOptions`
object literal in `MediaTypeModel.generateExamples`. -/
structure SamplerOptions where
  skipReadOnly : Bool
  skipWriteOnly : Bool
  skipNonRequired : Bool
  maxSampleDepth : Nat
deriving DecidableEq

/-- The slice of `OpenAPIParser` the pipeline reads: the raw spec document
handed to the sampler as context, and `deref`, which resolves a possibly
referenced value. Both are abstract data of the external collaborator. -/
structure OpenAPIParser where
  spec : JValue
  deref : JValue → JValue

/-- The external `openapi-sampler` entry point `Sampler.sample(schema,
options, spec)`, kept abstract per spec 4.3; failures surface as `Except`
errors, modelling a thrown JavaScript exception. -/
abbrev SampleFn : Type := Schema → SamplerOptions → JValue → Except String JValue

/-- Encoding metadata forwarded untouched to every constructed artifact. -/
abbrev Encoding : Type := List (String × JValue)

/-- Modelled from the spec: `ExampleModel` lives in
`src/services/models/Example.ts`, which is not among the available sources.
Spec 3 (ExampleArtifact): a name, a JSON-like value and the forwarded
encoding hints, immutable once constructed. -/
structure ExampleModel where
  value : JValue
  mime : String
  encoding : Option Encoding

/-- Constructor call `new ExampleModel(parser, { value }, name, encoding)`:
the artifact carries the given value, media-type name and encoding hints. -/
def ExampleModel.make (_p : OpenAPIParser) (value : JValue) (mime : String)
    (encoding : Option Encoding) : ExampleModel :=
  { value := value, mime := mime, encoding := encoding }

/-- The slice of an `OpenAPIMediaType` record the constructor reads: the raw
schema (already as its `SchemaModel`), the plural `examples` map, the singular
`example`, and the encoding map. Example entries carry the value of the
OpenAPI example object handed to `ExampleModel`. -/
structure OpenAPIMediaType where
  schema : Option Schema
  examples : Option (List (String × JValue))
  «example» : Option JValue
  encoding : Option Encoding

/-- The two `RedocNormalizedOptions` fields the model stores. -/
structure RedocNormalizedOptions where
  onlyRequiredInSamples : Bool
  generatedSamplesMaxDepth : Nat

/-- Observable steps of one read of `examples`: a tracked read of an
`activeOneOf` selection cell by the dependency collector, or one invocation
of the external sampler with the resolved schema and options it was given. -/
inductive Event where
  | collectSel (idx : Nat)
  | sampleCall (resolved : Schema) (opts : SamplerOptions)

abbrev ExamplesMap : Type := List (String × ExampleModel)

/-- State of `MediaTypeModel` after construction
(`src/services/models/MediaType.ts`). `staticExamples`, `parser`, `encoding`
and `shouldGenerateExamples` mirror the private fields stored for reactive
example generation. -/
structure MediaTypeModel where
  schema : Option Schema
  name : String
  isRequestType : Bool
  onlyRequiredInSamples : Bool
  generatedSamplesMaxDepth : Nat
  staticExamples : Option ExamplesMap
  parser : Option OpenAPIParser
  encoding : Option Encoding
  shouldGenerateExamples : Bool

/-- The `MediaTypeModel` constructor. `isJsonLike` (from `utils`) is kept
abstract as a predicate parameter on the media-type name. The `else if`
chain makes the plural `examples` win over the singular `example`, and
enables generation only when neither is present and the name is JSON-like;
`mapValues` keeps keys and maps each example to an `ExampleModel`. -/
def MediaTypeModel.make (isJsonLike : String → Bool) (parser : OpenAPIParser)
    (name : String) (isRequestType : Bool) (info : OpenAPIMediaType)
    (options : RedocNormalizedOptions) : MediaTypeModel :=
  { schema := info.schema
    name := name
    isRequestType := isRequestType
    onlyRequiredInSamples := options.onlyRequiredInSamples
    generatedSamplesMaxDepth := options.generatedSamplesMaxDepth
    parser := some parser
    encoding := info.encoding
    staticExamples :=
      match info.examples with
      | some exs =>
          some (exs.map (fun p => (p.1, ExampleModel.make parser p.2 name info.encoding)))
      | none =>
          match info.«example» with
          | some v =>
              some [("default", ExampleModel.make parser (parser.deref v) name info.encoding)]
          | none => none
    shouldGenerateExamples :=
      info.examples.isNone && info.«example».isNone && isJsonLike name }

/-- The `samplerOptions` literal built in `generateExamples`. -/
def MediaTypeModel.samplerOptions (m : MediaTypeModel) : SamplerOptions :=
  { skipReadOnly := m.isRequestType
    skipWriteOnly := !m.isRequestType
    skipNonRequired := m.isRequestType && m.onlyRequiredInSamples
    maxSampleDepth := m.generatedSamplesMaxDepth }

/-- Root-level discriminator write in the fan-out loop: when the root schema
has a truthy `discriminatorProp` and the sample is object-like, the field is
set to the variant title (`sample[this.schema.discriminatorProp] =
subSchema.title`). -/
def rootPatched (disc : Option String) (title : String) (sampled : JValue) : JValue :=
  match disc with
  | some d =>
      if !d.isEmpty && sampled.isObjectLike then
        sampled.setField d (.str title)
      else sampled
  | none => sampled

/-- The `for (const subSchema of this.schema.oneOf)` loop of
`generateExamples`: resolve the variant, sample it, set the root
discriminator field to the variant title when the root schema has a truthy
`discriminatorProp` and the sample is object-like, patch nested
discriminators, and store the artifact under the variant title. A thrown
sampler error aborts the loop and propagates. Returns the emitted events and
the accumulated example map. -/
def MediaTypeModel.genLoop (m : MediaTypeModel) (p : OpenAPIParser)
    (sample : SampleFn) (disc : Option String) :
    List Schema → ExamplesMap → List Event × Except String ExamplesMap
  | [], acc => ([], .ok acc)
  | sub :: rest, acc =>
    let resolved := getSchemaWithActiveDiscriminators sub
    match sample resolved m.samplerOptions p.spec with
    | .error e => ([.sampleCall resolved m.samplerOptions], .error e)
    | .ok sampled =>
      let sampled2 := applyDiscriminatorValues (rootPatched disc sub.title sampled) sub
      let next := m.genLoop p sample disc rest
        (setAssoc acc sub.title (ExampleModel.make p sampled2 m.name m.encoding))
      (.sampleCall resolved m.samplerOptions :: next.1, next.2)

/-- Embedding of `MediaTypeModel.generateExamples`: guard on schema and parser, build the
sampler options, then either fan out over a non-empty root `oneOf` (one
artifact per variant, keyed by the variant title) or sample the resolved root
schema once and emit the single artifact keyed `"default"`. The result pairs
the emitted events with the outcome; a sampler error is not caught. -/
def MediaTypeModel.generateExamples (m : MediaTypeModel) (sample : SampleFn) :
    List Event × Except String (Option ExamplesMap) :=
  match m.schema, m.parser with
  | some sch, some p =>
    (match sch.oneOf with
     | some (v0 :: vs) =>
       let r := m.genLoop p sample sch.discriminatorProp (v0 :: vs) []
       (r.1, r.2.map some)
     | _ =>
       let resolved := getSchemaWithActiveDiscriminators sch
       match sample resolved m.samplerOptions p.spec with
       | .error e => ([.sampleCall resolved m.samplerOptions], .error e)
       | .ok sampled =>
         ([.sampleCall resolved m.samplerOptions],
          .ok (some [("default",
            ExampleModel.make p (applyDiscriminatorValues sampled sch) m.name m.encoding)])))
  | _, _ => ([], .ok none)

/-- The `examples` computed getter: static examples short-circuit; a missing
generation flag, schema or parser yields no examples; otherwise the
dependency collector runs over the full schema tree (its reads are the
leading events, its result is discarded) and `generateExamples` produces the
outcome. -/
def MediaTypeModel.examples (m : MediaTypeModel) (sample : SampleFn) :
    List Event × Except String (Option ExamplesMap) :=
  match m.staticExamples with
  | some st => ([], .ok (some st))
  | none =>
    if !m.shouldGenerateExamples || m.schema.isNone || m.parser.isNone then
      ([], .ok none)
    else
      match m.schema with
      | some sch =>
        let reads := collectActiveDiscriminatorSelections sch
        let g := m.generateExamples sample
        (reads.map Event.collectSel ++ g.1, g.2)
      | none => ([], .ok none)

/-- Value the sampler produced for a variant on the success path (used to
state what the fan-out loop stores; the error case never reaches storage). -/
def sampledOf (m : MediaTypeModel) (p : OpenAPIParser) (sample : SampleFn)
    (sub : Schema) : JValue :=
  match sample (getSchemaWithActiveDiscriminators sub) m.samplerOptions p.spec with
  | .ok v => v
  | .error _ => .null

/-- The artifact the fan-out loop stores for one variant: sampled value, root
discriminator write, nested patch, wrapped with name and encoding. -/
def variantArtifact (m : MediaTypeModel) (p : OpenAPIParser) (sample : SampleFn)
    (disc : Option String) (sub : Schema) : ExampleModel :=
  ExampleModel.make p
    (applyDiscriminatorValues (rootPatched disc sub.title (sampledOf m p sample sub)) sub)
    m.name m.encoding

/-- Rightmost variant in the list whose title is the given tag. -/
def findLast (k : String) : List Schema → Option Schema
  | [] => none
  | sub :: rest =>
    match findLast k rest with
    | some x => some x
    | none => if sub.title = k then some sub else none

theorem assocFind_setAssoc_self {α : Type} :
    ∀ (l : List (String × α)) (k : String) (v : α),
    assocFind (setAssoc l k v) k = some v
  | [], k, v => by simp [setAssoc, assocFind]
  | (k0, v0) :: rest, k, v => by
    by_cases hk : k0 = k
    · simp [setAssoc, hk, assocFind]
    · simp [setAssoc, hk, assocFind]
      exact assocFind_setAssoc_self rest k v

theorem assocFind_setAssoc_ne {α : Type} :
    ∀ (l : List (String × α)) (k k2 : String) (v : α), k ≠ k2 →
    assocFind (setAssoc l k v) k2 = assocFind l k2
  | [], k, k2, v, h => by simp [setAssoc, assocFind, h]
  | (k0, v0) :: rest, k, k2, v, h => by
    by_cases hk : k0 = k
    · subst hk
      simp [setAssoc, assocFind, h]
    · simp [setAssoc, hk, assocFind]
      by_cases hk2 : k0 = k2
      · simp [hk2]
      · simp [hk2]
        exact assocFind_setAssoc_ne rest k k2 v h

theorem setAssoc_keys {α : Type} :
    ∀ (l : List (String × α)) (k : String) (v : α),
    (setAssoc l k v).map Prod.fst =
      if k ∈ l.map Prod.fst then l.map Prod.fst else l.map Prod.fst ++ [k]
  | [], k, v => by simp [setAssoc]
  | (k0, v0) :: rest, k, v => by
    by_cases hk : k0 = k
    · subst hk
      simp [setAssoc]
    · have ih := setAssoc_keys rest k v
      have hk2 : ¬k = k0 := fun h => hk h.symm
      by_cases hmem : k ∈ rest.map Prod.fst
      · simp [setAssoc, hk, hmem, ih, hk2]
      · simp [setAssoc, hk, hmem, ih, hk2]

theorem foldl_setAssoc_find {α : Type} (g : Schema → α) :
    ∀ (l : List Schema) (acc : List (String × α)) (k : String),
    assocFind (l.foldl (fun a sub => setAssoc a sub.title (g sub)) acc) k =
      match findLast k l with
      | some sub => some (g sub)
      | none => assocFind acc k
  | [], _, _ => rfl
  | sub :: rest, acc, k => by
    have ih := foldl_setAssoc_find g rest (setAssoc acc sub.title (g sub)) k
    simp only [List.foldl_cons, findLast]
    cases hr : findLast k rest with
    | some x =>
      simp only [hr] at ih
      simpa using ih
    | none =>
      simp only [hr] at ih ⊢
      by_cases ht : sub.title = k
      · rw [if_pos ht, ih]
        subst ht
        exact assocFind_setAssoc_self acc sub.title (g sub)
      · rw [if_neg ht, ih]
        exact assocFind_setAssoc_ne acc sub.title k (g sub) ht

/-- One step of key accumulation: JavaScript object insertion order. -/
def addKey (ks : List String) (t : String) : List String :=
  if t ∈ ks then ks else ks ++ [t]

theorem foldl_setAssoc_keys {α : Type} (g : Schema → α) :
    ∀ (l : List Schema) (acc : List (String × α)),
    (l.foldl (fun a sub => setAssoc a sub.title (g sub)) acc).map Prod.fst =
      (l.map Schema.title).foldl addKey (acc.map Prod.fst)
  | [], _ => rfl
  | sub :: rest, acc => by
    have ih := foldl_setAssoc_keys g rest (setAssoc acc sub.title (g sub))
    simp only [List.foldl_cons, List.map_cons]
    rw [ih, setAssoc_keys]
    rfl

theorem addKey_fold_of_disjoint :
    ∀ (ts ks : List String), ts.Nodup → (∀ t ∈ ts, t ∉ ks) →
    ts.foldl addKey ks = ks ++ ts
  | [], ks, _, _ => by simp
  | t :: rest, ks, hnd, hdisj => by
    simp only [List.foldl_cons]
    have ht : t ∉ ks := hdisj t (by simp)
    have hstep : addKey ks t = ks ++ [t] := by simp [addKey, ht]
    rw [hstep, addKey_fold_of_disjoint rest (ks ++ [t]) (List.Nodup.of_cons hnd)]
    · simp
    · intro x hx
      simp only [List.mem_append, List.mem_singleton]
      rintro (hks | hxt)
      · exact hdisj x (List.mem_cons_of_mem t hx) hks
      · subst hxt
        exact (List.nodup_cons.mp hnd).1 hx

theorem addKey_fold_nodup :
    ∀ (ts ks : List String), ks.Nodup → (ts.foldl addKey ks).Nodup
  | [], _, h => h
  | t :: rest, ks, h => by
    simp only [List.foldl_cons]
    apply addKey_fold_nodup rest
    by_cases ht : t ∈ ks
    · simpa [addKey, ht] using h
    · simp only [addKey, ht, if_neg]
      simpa [List.nodup_append] using ⟨h, ht⟩

theorem addKey_fold_toFinset :
    ∀ (ts ks : List String), (ts.foldl addKey ks).toFinset = ks.toFinset ∪ ts.toFinset
  | [], ks => by simp
  | t :: rest, ks => by
    simp only [List.foldl_cons, addKey_fold_toFinset rest]
    ext x
    simp only [Finset.mem_union, List.mem_toFinset, List.mem_cons]
    by_cases ht : t ∈ ks
    · simp only [addKey, if_pos ht]
      constructor
      · rintro (h | h)
        · exact Or.inl h
        · exact Or.inr (Or.inr h)
      · rintro (h | h | h)
        · exact Or.inl h
        · subst h
          exact Or.inl ht
        · exact Or.inr h
    · simp only [addKey, if_neg ht, List.mem_append, List.mem_singleton]
      tauto

theorem writeDiscriminator_not_obj (v : JValue) (d : Option String) (tag : String)
    (h : ∀ fs, v ≠ .obj fs) : writeDiscriminator v d tag = v := by
  cases d with
  | none => cases v <;> rfl
  | some dp => cases v <;> first | rfl | exact absurd rfl (h _)

theorem unwrapPoly_fst_not_obj :
    ∀ (v : JValue) (s : Schema), (∀ fs, v ≠ .obj fs) → (unwrapPoly v s).1 = v := by
  intro v s
  induction v, s using unwrapPoly.induct with
  | case1 v t d v0 vs a f i ih =>
    intro h
    rw [unwrapPoly, writeDiscriminator_not_obj v d _ h]
    rw [writeDiscriminator_not_obj v d _ h] at ih
    exact ih h
  | case2 v s h =>
    intro _
    rw [unwrapPoly.eq_2]
    exact h

theorem unwrapPoly_nonpoly (v : JValue) (s : Schema)
    (h : s.oneOf = none ∨ s.oneOf = some []) : unwrapPoly v s = (v, s) := by
  rw [unwrapPoly.eq_2]
  intro t d v0 vs a f i heq
  subst heq
  simp only [Schema.oneOf] at h
  rcases h with h | h <;> simp at h

theorem applyDiscriminatorValues_str (t : String) (s : Schema) :
    applyDiscriminatorValues (.str t) s = .str t := by
  have h1 : (unwrapPoly (.str t) s).1 = .str t :=
    unwrapPoly_fst_not_obj (.str t) s (fun fs h => by simp at h)
  rw [applyDiscriminatorValues.eq_def, h1]

theorem applyDiscriminatorValues_obj_getField (s : Schema) (d t : String)
    (hnp : s.oneOf = none ∨ s.oneOf = some []) :
    ∀ (fs : List (String × JValue)), assocFind fs d = some (.str t) →
    (applyDiscriminatorValues (.obj fs) s).getField d = some (.str t) := by
  intro fs hfind
  rw [applyDiscriminatorValues.eq_def, unwrapPoly_nonpoly _ _ hnp]
  simp only [JValue.getField]
  induction fs with
  | nil => simp [assocFind] at hfind
  | cons hd tl ih =>
    obtain ⟨k0, v0⟩ := hd
    simp only [assocFind] at hfind
    simp only [List.map_cons, assocFind]
    by_cases hk : k0 = d
    · rw [if_pos hk] at hfind ⊢
      have hv0 : v0 = .str t := by
        injection hfind
      subst hv0
      split
      · rw [applyDiscriminatorValues_str]
      · rfl
    · rw [if_neg hk] at hfind ⊢
      exact ih hfind

theorem sampledOf_eq (m : MediaTypeModel) (p : OpenAPIParser) (sample : SampleFn)
    (sub : Schema) (sv : JValue)
    (h : sample (getSchemaWithActiveDiscriminators sub) m.samplerOptions p.spec = .ok sv) :
    sampledOf m p sample sub = sv := by
  simp [sampledOf, h]

theorem genLoop_ok (m : MediaTypeModel) (p : OpenAPIParser) (sample : SampleFn)
    (disc : Option String) :
    ∀ (l : List Schema) (acc : ExamplesMap),
    (∀ sub ∈ l, ∃ sv,
        sample (getSchemaWithActiveDiscriminators sub) m.samplerOptions p.spec = .ok sv) →
    m.genLoop p sample disc l acc =
      (l.map (fun sub => .sampleCall (getSchemaWithActiveDiscriminators sub) m.samplerOptions),
       .ok (l.foldl (fun a sub => setAssoc a sub.title (variantArtifact m p sample disc sub)) acc))
  | [], _, _ => rfl
  | sub :: rest, acc, hok => by
    obtain ⟨sv, hsv⟩ := hok sub (List.mem_cons_self _ _)
    have ih := genLoop_ok m p sample disc rest
      (setAssoc acc sub.title (variantArtifact m p sample disc sub))
      (fun x hx => hok x (List.mem_cons_of_mem _ hx))
    simp only [MediaTypeModel.genLoop, hsv, List.map_cons, List.foldl_cons]
    rw [show ExampleModel.make p
          (applyDiscriminatorValues (rootPatched disc sub.title sv) sub) m.name m.encoding =
        variantArtifact m p sample disc sub from by
      rw [variantArtifact, sampledOf_eq m p sample sub sv hsv]]
    rw [ih]

theorem genLoop_error (m : MediaTypeModel) (p : OpenAPIParser) (sample : SampleFn)
    (disc : Option String) (e : String) :
    ∀ (l1 : List Schema) (sub : Schema) (l2 : List Schema) (acc : ExamplesMap),
    (∀ x ∈ l1, ∃ sv,
        sample (getSchemaWithActiveDiscriminators x) m.samplerOptions p.spec = .ok sv) →
    sample (getSchemaWithActiveDiscriminators sub) m.samplerOptions p.spec = .error e →
    m.genLoop p sample disc (l1 ++ sub :: l2) acc =
      (l1.map (fun x => .sampleCall (getSchemaWithActiveDiscriminators x) m.samplerOptions) ++
        [.sampleCall (getSchemaWithActiveDiscriminators sub) m.samplerOptions],
       .error e)
  | [], sub, l2, acc, _, herr => by
    simp only [List.nil_append, MediaTypeModel.genLoop, herr, List.map_nil]
  | x :: rest, sub, l2, acc, hok, herr => by
    obtain ⟨sv, hsv⟩ := hok x (List.mem_cons_self _ _)
    have ih := genLoop_error m p sample disc e rest sub l2
      (setAssoc acc x.title (ExampleModel.make p
        (applyDiscriminatorValues (rootPatched disc x.title sv) x) m.name m.encoding))
      (fun y hy => hok y (List.mem_cons_of_mem _ hy)) herr
    simp only [List.cons_append, MediaTypeModel.genLoop, hsv, List.map_cons, List.append_eq]
    rw [ih]

theorem genLoop_events (m : MediaTypeModel) (p : OpenAPIParser) (sample : SampleFn)
    (disc : Option String) :
    ∀ (l : List Schema) (acc : ExamplesMap),
    ∀ ev ∈ (m.genLoop p sample disc l acc).1, ∃ r, ev = .sampleCall r m.samplerOptions
  | [], _, ev, hev => by simp [MediaTypeModel.genLoop] at hev
  | sub :: rest, acc, ev, hev => by
    simp only [MediaTypeModel.genLoop] at hev
    cases hs : sample (getSchemaWithActiveDiscriminators sub) m.samplerOptions p.spec with
    | error e =>
      rw [hs] at hev
      simp at hev
      exact ⟨_, hev⟩
    | ok sv =>
      rw [hs] at hev
      simp only [List.mem_cons] at hev
      rcases hev with hev | hev
      · exact ⟨_, hev⟩
      · exact genLoop_events m p sample disc rest _ ev hev

theorem examples_static (m : MediaTypeModel) (sample : SampleFn) (st : ExamplesMap)
    (h : m.staticExamples = some st) :
    m.examples sample = ([], .ok (some st)) := by
  simp [MediaTypeModel.examples, h]

theorem examples_no_generation (m : MediaTypeModel) (sample : SampleFn)
    (hstatic : m.staticExamples = none)
    (h : m.shouldGenerateExamples = false ∨ m.schema = none ∨ m.parser = none) :
    m.examples sample = ([], .ok none) := by
  rw [MediaTypeModel.examples]
  rw [hstatic]
  rcases h with h | h | h <;> simp [h]

theorem examples_generating (m : MediaTypeModel) (sample : SampleFn) (sch : Schema)
    (hstatic : m.staticExamples = none)
    (hgen : m.shouldGenerateExamples = true)
    (hsch : m.schema = some sch)
    (hp : m.parser ≠ none) :
    m.examples sample =
      ((collectActiveDiscriminatorSelections sch).map Event.collectSel ++
        (m.generateExamples sample).1,
       (m.generateExamples sample).2) := by
  rw [MediaTypeModel.examples, hstatic]
  have hps : m.parser.isNone = false := by
    cases hmp : m.parser with
    | none => exact absurd hmp hp
    | some p => rfl
  simp [hgen, hsch, hps]

theorem generateExamples_poly (m : MediaTypeModel) (sample : SampleFn) (sch : Schema)
    (p : OpenAPIParser) (v0 : Schema) (vs : List Schema)
    (hsch : m.schema = some sch) (hp : m.parser = some p)
    (ho : sch.oneOf = some (v0 :: vs)) :
    m.generateExamples sample =
      ((m.genLoop p sample sch.discriminatorProp (v0 :: vs) []).1,
       (m.genLoop p sample sch.discriminatorProp (v0 :: vs) []).2.map some) := by
  rw [MediaTypeModel.generateExamples, hsch, hp]
  simp only [ho]

theorem generateExamples_single (m : MediaTypeModel) (sample : SampleFn) (sch : Schema)
    (p : OpenAPIParser)
    (hsch : m.schema = some sch) (hp : m.parser = some p)
    (ho : sch.oneOf = none ∨ sch.oneOf = some []) :
    m.generateExamples sample =
      (match sample (getSchemaWithActiveDiscriminators sch) m.samplerOptions p.spec with
       | .error e => ([.sampleCall (getSchemaWithActiveDiscriminators sch) m.samplerOptions],
                      .error e)
       | .ok sampled =>
         ([.sampleCall (getSchemaWithActiveDiscriminators sch) m.samplerOptions],
          .ok (some [("default",
            ExampleModel.make p (applyDiscriminatorValues sampled sch) m.name m.encoding)]))) := by
  rw [MediaTypeModel.generateExamples, hsch, hp]
  rcases ho with ho | ho <;> simp only [ho]

theorem findLast_eq_none_of_not_mem :
    ∀ (l : List Schema) (k : String), k ∉ l.map Schema.title → findLast k l = none
  | [], _, _ => rfl
  | x :: rest, k, h => by
    simp only [List.map_cons, List.mem_cons] at h
    push_neg at h
    simp only [findLast, findLast_eq_none_of_not_mem rest k h.2]
    rw [if_neg (fun ht => h.1 ht.symm)]

theorem findLast_of_nodup :
    ∀ (l : List Schema), (l.map Schema.title).Nodup →
    ∀ sub ∈ l, findLast sub.title l = some sub
  | [], _, sub, h => by simp at h
  | x :: rest, hnd, sub, h => by
    simp only [List.map_cons, List.nodup_cons] at hnd
    rcases List.mem_cons.mp h with rfl | hmem
    · simp [findLast, findLast_eq_none_of_not_mem rest sub.title hnd.1]
    · simp only [findLast, findLast_of_nodup rest hnd.2 sub hmem]

theorem findLast_spec :
    ∀ (l : List Schema) (k : String) (sub : Schema),
    findLast k l = some sub → sub ∈ l ∧ sub.title = k
  | [], _, _, h => by simp [findLast] at h
  | x :: rest, k, sub, h => by
    simp only [findLast] at h
    cases hr : findLast k rest with
    | some y =>
      rw [hr] at h
      have hspec := findLast_spec rest k y hr
      injection h with h
      subst h
      exact ⟨List.mem_cons_of_mem _ hspec.1, hspec.2⟩
    | none =>
      rw [hr] at h
      by_cases ht : x.title = k
      · rw [if_pos ht] at h
        injection h with h
        subst h
        exact ⟨List.mem_cons_self _ _, ht⟩
      · rw [if_neg ht] at h
        exact absurd h (by simp)

theorem findLast_isSome_of_mem :
    ∀ (l : List Schema) (k : String), k ∈ l.map Schema.title →
    ∃ sub, findLast k l = some sub
  | [], _, h => by simp at h
  | x :: rest, k, h => by
    simp only [findLast]
    cases hr : findLast k rest with
    | some y => exact ⟨y, rfl⟩
    | none =>
      simp only [List.map_cons, List.mem_cons] at h
      rcases h with h | h
      · exact ⟨x, by rw [if_pos h.symm]⟩
      · obtain ⟨y, hy⟩ := findLast_isSome_of_mem rest k h
        rw [hy] at hr
        exact absurd hr (by simp)

/-- C2: a `MediaTypeModel` constructed with caller-supplied static examples
(the plural `examples` map, or else the singular `example`) returns exactly
those static examples on every read of `examples`, with an empty event trace
(no dependency collection, no sampling), for every sampler and shape. -/
theorem c2_static_short_circuit (isJsonLike : String → Bool) (parser : OpenAPIParser)
    (name : String) (isRequestType : Bool) (info : OpenAPIMediaType)
    (options : RedocNormalizedOptions) (sample : SampleFn) :
    (∀ exs, info.examples = some exs →
      (MediaTypeModel.make isJsonLike parser name isRequestType info options).examples sample =
        ([], .ok (some (exs.map (fun q => (q.1, ExampleModel.make parser q.2 name info.encoding)))))) ∧
    (info.examples = none → ∀ v, info.«example» = some v →
      (MediaTypeModel.make isJsonLike parser name isRequestType info options).examples sample =
        ([], .ok (some [("default",
          ExampleModel.make parser (parser.deref v) name info.encoding)]))) := by
  constructor
  · intro exs hexs
    apply examples_static
    simp [MediaTypeModel.make, hexs]
  · intro hnone v hv
    apply examples_static
    simp [MediaTypeModel.make, hnone, hv]

/-- C5: whenever no static examples are stored and the generation flag is
off, or the schema or the parser is unavailable at read time, reading
`examples` returns the no-examples result (`none`) without an error, for
every sampler. -/
theorem c5_missing_context (m : MediaTypeModel) (sample : SampleFn)
    (hstatic : m.staticExamples = none)
    (h : m.shouldGenerateExamples = false ∨ m.schema = none ∨ m.parser = none) :
    m.examples sample = ([], .ok none) :=
  examples_no_generation m sample hstatic h

/-- C10: generation is enabled exactly when neither static example input is
present and the media-type name is JSON-like; a non-JSON-like name with no
static examples reads as no examples even with schema and parser present;
and the plural `examples` input takes precedence over the singular
`example`, which is then ignored. -/
theorem c10_constructor_gating (isJsonLike : String → Bool) (parser : OpenAPIParser)
    (name : String) (isRequestType : Bool) (info : OpenAPIMediaType)
    (options : RedocNormalizedOptions) :
    (MediaTypeModel.make isJsonLike parser name isRequestType info options).shouldGenerateExamples =
      (info.examples.isNone && info.«example».isNone && isJsonLike name) ∧
    (isJsonLike name = false → info.examples = none → info.«example» = none →
      ∀ sample,
        (MediaTypeModel.make isJsonLike parser name isRequestType info options).examples sample =
          ([], .ok none)) ∧
    (∀ exs, info.examples = some exs →
      (MediaTypeModel.make isJsonLike parser name isRequestType info options).staticExamples =
        some (exs.map (fun q => (q.1, ExampleModel.make parser q.2 name info.encoding)))) := by
  refine ⟨rfl, ?_, ?_⟩
  · intro hjson hexs hex sample
    apply examples_no_generation
    · simp [MediaTypeModel.make, hexs, hex]
    · exact Or.inl (by simp [MediaTypeModel.make, hexs, hex, hjson])
  · intro exs hexs
    simp [MediaTypeModel.make, hexs]

/-- C3: with no static examples, generation enabled and a root schema with no
non-empty `oneOf`, a read on which the sampler succeeds yields exactly one
artifact, keyed by the string "default". -/
theorem c3_single_default (m : MediaTypeModel) (sample : SampleFn) (sch : Schema)
    (p : OpenAPIParser) (sv : JValue)
    (hstatic : m.staticExamples = none)
    (hgen : m.shouldGenerateExamples = true)
    (hsch : m.schema = some sch)
    (hp : m.parser = some p)
    (ho : sch.oneOf = none ∨ sch.oneOf = some [])
    (hsv : sample (getSchemaWithActiveDiscriminators sch) m.samplerOptions p.spec = .ok sv) :
    (m.examples sample).2 =
      .ok (some [("default",
        ExampleModel.make p (applyDiscriminatorValues sv sch) m.name m.encoding)]) := by
  rw [examples_generating m sample sch hstatic hgen hsch (by simp [hp])]
  rw [generateExamples_single m sample sch p hsch hp ho]
  simp [hsv]

/-- C6: an empty variant list at the root does not fan out per variant; the
read degenerates to the single-artifact path, emitting exactly one sampler
call on the resolved root shape and one artifact keyed "default" over that
degenerate shape (the outcome the spec tells callers to treat as NoExamples). -/
theorem c6_empty_variants_degenerate (m : MediaTypeModel) (sample : SampleFn)
    (sch : Schema) (p : OpenAPIParser) (sv : JValue)
    (hstatic : m.staticExamples = none)
    (hgen : m.shouldGenerateExamples = true)
    (hsch : m.schema = some sch)
    (hp : m.parser = some p)
    (ho : sch.oneOf = some [])
    (hsv : sample (getSchemaWithActiveDiscriminators sch) m.samplerOptions p.spec = .ok sv) :
    m.examples sample =
      ((collectActiveDiscriminatorSelections sch).map Event.collectSel ++
        [.sampleCall (getSchemaWithActiveDiscriminators sch) m.samplerOptions],
       .ok (some [("default",
        ExampleModel.make p (applyDiscriminatorValues sv sch) m.name m.encoding)])) := by
  rw [examples_generating m sample sch hstatic hgen hsch (by simp [hp])]
  rw [generateExamples_single m sample sch p hsch hp (Or.inr ho)]
  simp [hsv]

theorem generateExamples_events (m : MediaTypeModel) (sample : SampleFn) :
    ∀ ev ∈ (m.generateExamples sample).1, ∃ r, ev = .sampleCall r m.samplerOptions := by
  intro ev hev
  cases hsch : m.schema with
  | none =>
    rw [MediaTypeModel.generateExamples, hsch] at hev
    simp at hev
  | some sch =>
    cases hp : m.parser with
    | none =>
      rw [MediaTypeModel.generateExamples, hsch, hp] at hev
      simp at hev
    | some p =>
      cases ho : sch.oneOf with
      | some l =>
        cases l with
        | cons v0 vs =>
          rw [generateExamples_poly m sample sch p v0 vs hsch hp ho] at hev
          exact genLoop_events m p sample sch.discriminatorProp (v0 :: vs) [] ev hev
        | nil =>
          rw [generateExamples_single m sample sch p hsch hp (Or.inr ho)] at hev
          cases hs : sample (getSchemaWithActiveDiscriminators sch) m.samplerOptions p.spec with
          | error e => rw [hs] at hev; simp at hev; exact ⟨_, hev⟩
          | ok sv => rw [hs] at hev; simp at hev; exact ⟨_, hev⟩
      | none =>
        rw [generateExamples_single m sample sch p hsch hp (Or.inl ho)] at hev
        cases hs : sample (getSchemaWithActiveDiscriminators sch) m.samplerOptions p.spec with
        | error e => rw [hs] at hev; simp at hev; exact ⟨_, hev⟩
        | ok sv => rw [hs] at hev; simp at hev; exact ⟨_, hev⟩

theorem examples_events (m : MediaTypeModel) (sample : SampleFn) :
    ∀ ev ∈ (m.examples sample).1,
      (∃ i, ev = .collectSel i) ∨ ∃ r, ev = .sampleCall r m.samplerOptions := by
  intro ev hev
  cases hst : m.staticExamples with
  | some st =>
    rw [examples_static m sample st hst] at hev
    simp at hev
  | none =>
    by_cases hgen : m.shouldGenerateExamples = true
    · cases hsch : m.schema with
      | none =>
        rw [examples_no_generation m sample hst (Or.inr (Or.inl hsch))] at hev
        simp at hev
      | some sch =>
        cases hp : m.parser with
        | none =>
          rw [examples_no_generation m sample hst (Or.inr (Or.inr hp))] at hev
          simp at hev
        | some p =>
          rw [examples_generating m sample sch hst hgen hsch (by simp [hp])] at hev
          rcases List.mem_append.mp hev with h | h
          · obtain ⟨i, hi, hevi⟩ := List.mem_map.mp h
            exact Or.inl ⟨i, hevi.symm⟩
          · exact Or.inr (generateExamples_events m sample ev h)
    · rw [examples_no_generation m sample hst
        (Or.inl (by simpa using hgen))] at hev
      simp at hev

/-- C4: every invocation of the external sampler during a read of `examples`
receives exactly these options: skip-read-only is the request direction
flag, skip-write-only its negation, skip-non-required their conjunction with
the only-required-in-samples option, and the max-depth option is passed
through unchanged. -/
theorem c4_sampler_options (isJsonLike : String → Bool) (parser : OpenAPIParser)
    (name : String) (isRequestType : Bool) (info : OpenAPIMediaType)
    (options : RedocNormalizedOptions) (sample : SampleFn) :
    ∀ ev ∈ ((MediaTypeModel.make isJsonLike parser name isRequestType info options).examples
      sample).1,
    ∀ r o, ev = .sampleCall r o →
      o.skipReadOnly = isRequestType ∧
      o.skipWriteOnly = !isRequestType ∧
      o.skipNonRequired = (isRequestType && options.onlyRequiredInSamples) ∧
      o.maxSampleDepth = options.generatedSamplesMaxDepth := by
  intro ev hev r o heq
  rcases examples_events _ sample ev hev with ⟨i, hevi⟩ | ⟨r2, hev2⟩
  · rw [hevi] at heq
    exact absurd heq (by simp)
  · rw [hev2] at heq
    injection heq with h1 h2
    subst h2
    exact ⟨rfl, rfl, rfl, rfl⟩

/-- C7: on every read that enters the generating state, the dependency
collector traverses the full shape tree and its reads are the leading events
of the trace, before any sampler invocation (every remaining event is a
sampler call); the outcome of the read equals the generator outcome, so the
collector result itself is discarded. -/
theorem c7_collector_first (m : MediaTypeModel) (sample : SampleFn) (sch : Schema)
    (hstatic : m.staticExamples = none)
    (hgen : m.shouldGenerateExamples = true)
    (hsch : m.schema = some sch)
    (hp : m.parser ≠ none) :
    (m.examples sample).1 =
      (collectActiveDiscriminatorSelections sch).map Event.collectSel ++
        (m.generateExamples sample).1 ∧
    (∀ ev ∈ (m.generateExamples sample).1, ∃ r o, ev = .sampleCall r o) ∧
    (m.examples sample).2 = (m.generateExamples sample).2 := by
  rw [examples_generating m sample sch hstatic hgen hsch hp]
  refine ⟨rfl, ?_, rfl⟩
  intro ev hev
  obtain ⟨r, hr⟩ := generateExamples_events m sample ev hev
  exact ⟨r, m.samplerOptions, hr⟩

/-- C8: a sampler error during generation propagates to the caller of the
read: the outcome is that error, no artifact map is produced, and the trace
shows the failing call was the last sampler invocation (no retry), both on
the single-artifact path and in the variant fan-out at any position. -/
theorem c8_sampler_error_propagates (m : MediaTypeModel) (sample : SampleFn)
    (sch : Schema) (p : OpenAPIParser) (e : String)
    (hstatic : m.staticExamples = none)
    (hgen : m.shouldGenerateExamples = true)
    (hsch : m.schema = some sch)
    (hp : m.parser = some p) :
    ((sch.oneOf = none ∨ sch.oneOf = some []) →
      sample (getSchemaWithActiveDiscriminators sch) m.samplerOptions p.spec = .error e →
      m.examples sample =
        ((collectActiveDiscriminatorSelections sch).map Event.collectSel ++
          [.sampleCall (getSchemaWithActiveDiscriminators sch) m.samplerOptions],
         .error e)) ∧
    (∀ l1 sub l2, sch.oneOf = some (l1 ++ sub :: l2) →
      (∀ x ∈ l1, ∃ sv,
        sample (getSchemaWithActiveDiscriminators x) m.samplerOptions p.spec = .ok sv) →
      sample (getSchemaWithActiveDiscriminators sub) m.samplerOptions p.spec = .error e →
      m.examples sample =
        ((collectActiveDiscriminatorSelections sch).map Event.collectSel ++
          (l1.map (fun x => .sampleCall (getSchemaWithActiveDiscriminators x) m.samplerOptions) ++
            [.sampleCall (getSchemaWithActiveDiscriminators sub) m.samplerOptions]),
         .error e)) := by
  constructor
  · intro ho herr
    rw [examples_generating m sample sch hstatic hgen hsch (by simp [hp])]
    rw [generateExamples_single m sample sch p hsch hp ho]
    simp [herr]
  · intro l1 sub l2 ho hok herr
    rw [examples_generating m sample sch hstatic hgen hsch (by simp [hp])]
    obtain ⟨v0, vs, hl⟩ : ∃ v0 vs, l1 ++ sub :: l2 = v0 :: vs := by
      cases l1 with
      | nil => exact ⟨sub, l2, rfl⟩
      | cons a b => exact ⟨a, b ++ sub :: l2, rfl⟩
    rw [generateExamples_poly m sample sch p v0 vs hsch hp (hl ▸ ho)]
    rw [← hl]
    rw [genLoop_error m p sample sch.discriminatorProp e l1 sub l2 [] hok herr]
    rfl

/-- C1: with no static examples, generation enabled, and a root schema whose
variant list is non-empty (with distinct, non-polymorphic variants and a
sampler producing objects), the read yields exactly one artifact per
variant, keyed by the variant title; and when the root has a truthy
discriminator field, each artifact value carries that field set to its key. -/
theorem c1_poly_fanout (m : MediaTypeModel) (sample : SampleFn) (sch : Schema)
    (p : OpenAPIParser) (variants : List Schema)
    (hstatic : m.staticExamples = none)
    (hgen : m.shouldGenerateExamples = true)
    (hsch : m.schema = some sch)
    (hp : m.parser = some p)
    (ho : sch.oneOf = some variants)
    (hne : variants ≠ [])
    (hnodup : (variants.map Schema.title).Nodup)
    (hflat : ∀ sub ∈ variants, sub.oneOf = none ∨ sub.oneOf = some [])
    (hok : ∀ sub ∈ variants, ∃ fs,
        sample (getSchemaWithActiveDiscriminators sub) m.samplerOptions p.spec =
          .ok (.obj fs)) :
    ∃ exs, (m.examples sample).2 = .ok (some exs) ∧
      exs.map Prod.fst = variants.map Schema.title ∧
      ∀ sub ∈ variants, ∃ em, assocFind exs sub.title = some em ∧
        (∀ d, sch.discriminatorProp = some d → d.isEmpty = false →
          em.value.getField d = some (.str sub.title)) := by
  obtain ⟨v0, vs, rfl⟩ : ∃ v0 vs, variants = v0 :: vs := by
    cases variants with
    | nil => exact absurd rfl hne
    | cons a b => exact ⟨a, b, rfl⟩
  have hsome : ∀ sub ∈ v0 :: vs, ∃ sv,
      sample (getSchemaWithActiveDiscriminators sub) m.samplerOptions p.spec = .ok sv :=
    fun sub hs => (hok sub hs).elim (fun fs hfs => ⟨.obj fs, hfs⟩)
  refine ⟨(v0 :: vs).foldl (fun a sub => setAssoc a sub.title
      (variantArtifact m p sample sch.discriminatorProp sub)) [], ?_, ?_, ?_⟩
  · rw [examples_generating m sample sch hstatic hgen hsch (by simp [hp])]
    rw [generateExamples_poly m sample sch p v0 vs hsch hp ho]
    rw [genLoop_ok m p sample sch.discriminatorProp (v0 :: vs) [] hsome]
    rfl
  · rw [foldl_setAssoc_keys]
    rw [show (([] : ExamplesMap).map Prod.fst) = [] from rfl]
    rw [addKey_fold_of_disjoint _ _ hnodup (by simp)]
    simp
  · intro sub hs
    refine ⟨variantArtifact m p sample sch.discriminatorProp sub, ?_, ?_⟩
    · rw [foldl_setAssoc_find]
      rw [findLast_of_nodup (v0 :: vs) hnodup sub hs]
    · intro d hd hde
      obtain ⟨fs, hfs⟩ := hok sub hs
      have hs2 : sampledOf m p sample sub = .obj fs := sampledOf_eq m p sample sub _ hfs
      show ((ExampleModel.make p
        (applyDiscriminatorValues
          (rootPatched sch.discriminatorProp sub.title (sampledOf m p sample sub)) sub)
        m.name m.encoding).value).getField d = some (.str sub.title)
      rw [ExampleModel.make]
      rw [hd, hs2, rootPatched]
      simp only [hde, JValue.isObjectLike, Bool.not_false, Bool.true_and, if_pos,
        JValue.setField]
      exact applyDiscriminatorValues_obj_getField sub d sub.title (hflat sub hs) _
        (assocFind_setAssoc_self fs d _)

/-- C9: when generation fans out over the root variants (sampler succeeding),
the resulting map has pairwise distinct keys, exactly one entry per distinct
variant tag (never more entries than distinct tags), and each entry holds the
artifact generated for the last variant carrying that tag (later variants
overwrite earlier ones sharing the tag). -/
theorem c9_duplicate_tags_last_wins (m : MediaTypeModel) (sample : SampleFn)
    (sch : Schema) (p : OpenAPIParser) (variants : List Schema)
    (hstatic : m.staticExamples = none)
    (hgen : m.shouldGenerateExamples = true)
    (hsch : m.schema = some sch)
    (hp : m.parser = some p)
    (ho : sch.oneOf = some variants)
    (hne : variants ≠ [])
    (hok : ∀ sub ∈ variants, ∃ sv,
        sample (getSchemaWithActiveDiscriminators sub) m.samplerOptions p.spec = .ok sv) :
    ∃ exs, (m.examples sample).2 = .ok (some exs) ∧
      (exs.map Prod.fst).Nodup ∧
      exs.length = (variants.map Schema.title).dedup.length ∧
      ∀ k ∈ variants.map Schema.title, ∃ sub, findLast k variants = some sub ∧
        sub ∈ variants ∧ sub.title = k ∧
        assocFind exs k = some (variantArtifact m p sample sch.discriminatorProp sub) := by
  obtain ⟨v0, vs, rfl⟩ : ∃ v0 vs, variants = v0 :: vs := by
    cases variants with
    | nil => exact absurd rfl hne
    | cons a b => exact ⟨a, b, rfl⟩
  refine ⟨(v0 :: vs).foldl (fun a sub => setAssoc a sub.title
      (variantArtifact m p sample sch.discriminatorProp sub)) [], ?_, ?_, ?_, ?_⟩
  · rw [examples_generating m sample sch hstatic hgen hsch (by simp [hp])]
    rw [generateExamples_poly m sample sch p v0 vs hsch hp ho]
    rw [genLoop_ok m p sample sch.discriminatorProp (v0 :: vs) [] hok]
    rfl
  · rw [foldl_setAssoc_keys]
    exact addKey_fold_nodup _ _ (by simp)
  · have hkeys := foldl_setAssoc_keys
      (variantArtifact m p sample sch.discriminatorProp) (v0 :: vs) []
    have hnd : ((((v0 :: vs).map Schema.title)).foldl addKey
        (([] : ExamplesMap).map Prod.fst)).Nodup := addKey_fold_nodup _ _ (by simp)
    calc ((v0 :: vs).foldl (fun a sub => setAssoc a sub.title
            (variantArtifact m p sample sch.discriminatorProp sub)) []).length
        = (((v0 :: vs).foldl (fun a sub => setAssoc a sub.title
            (variantArtifact m p sample sch.discriminatorProp sub)) []).map
              Prod.fst).length := (List.length_map _ _).symm
      _ = ((((v0 :: vs).map Schema.title)).foldl addKey
            (([] : ExamplesMap).map Prod.fst)).length := by rw [hkeys]
      _ = ((((v0 :: vs).map Schema.title)).foldl addKey
            (([] : ExamplesMap).map Prod.fst)).toFinset.card :=
          (List.toFinset_card_of_nodup hnd).symm
      _ = ((v0 :: vs).map Schema.title).toFinset.card := by
          rw [addKey_fold_toFinset]
          simp
      _ = ((v0 :: vs).map Schema.title).dedup.length := List.card_toFinset _
  · intro k hk
    obtain ⟨sub, hsub⟩ := findLast_isSome_of_mem _ k hk
    have hspec := findLast_spec _ k sub hsub
    refine ⟨sub, hsub, hspec.1, hspec.2, ?_⟩
    rw [foldl_setAssoc_find]
    rw [hsub]

/-- Concrete parser fixture for witnesses. -/
def wParser : OpenAPIParser := ⟨.null, fun v => v⟩

/-- Concrete options fixture for witnesses. -/
def wOptions : RedocNormalizedOptions := ⟨false, 10⟩

def wCat : Schema := .mk "Cat" none none 0 [] none

def wDog : Schema := .mk "Dog" none none 0 [] none

/-- Root-polymorphic pet shape with discriminator `petType` and variants
tagged Cat and Dog. -/
def wPet : Schema := .mk "Pet" (some "petType") (some [wCat, wDog]) 0 [] none

def wPlain : Schema := .mk "Thing" none none 0 [] none

/-- Root-polymorphic shape with an empty variant list. -/
def wEmptyPoly : Schema := .mk "E" (some "petType") (some []) 0 [] none

def wSame1 : Schema := .mk "Same" none none 0 [] none

def wSame2 : Schema := .mk "Same" none none 0 [("z", wCat)] none

/-- Root-polymorphic shape whose two variants share the tag Same. -/
def wDupPet : Schema := .mk "P" (some "t") (some [wSame1, wSame2]) 0 [] none

/-- Sampler fixture that always returns an empty object. -/
def wSampleObj : SampleFn := fun _ _ _ => .ok (.obj [])

/-- Sampler fixture that always raises. -/
def wSampleErr : SampleFn := fun _ _ _ => .error "boom"

def wInfoGen : OpenAPIMediaType := ⟨some wPet, none, none, none⟩

def wInfoPlain : OpenAPIMediaType := ⟨some wPlain, none, none, none⟩

def wInfoEmptyPoly : OpenAPIMediaType := ⟨some wEmptyPoly, none, none, none⟩

def wInfoDup : OpenAPIMediaType := ⟨some wDupPet, none, none, none⟩

def wInfoStatic : OpenAPIMediaType :=
  ⟨some wPet, some [("a", .null)], some (.str "ig"), none⟩

def wInfoSingular : OpenAPIMediaType := ⟨some wPet, none, some (.str "sing"), none⟩

def wPetModel : MediaTypeModel :=
  MediaTypeModel.make (fun _ => true) wParser "application/json" false wInfoGen wOptions

def wPlainModel : MediaTypeModel :=
  MediaTypeModel.make (fun _ => true) wParser "application/json" false wInfoPlain wOptions

def wEmptyModel : MediaTypeModel :=
  MediaTypeModel.make (fun _ => true) wParser "application/json" false wInfoEmptyPoly wOptions

def wDupModel : MediaTypeModel :=
  MediaTypeModel.make (fun _ => true) wParser "application/json" false wInfoDup wOptions

def wTextModel : MediaTypeModel :=
  MediaTypeModel.make (fun _ => false) wParser "text/plain" false wInfoPlain wOptions

/-- Witness for C1 at the Cat and Dog fixture. -/
theorem c1_poly_fanout_witness :
    wPetModel.staticExamples = none ∧
    wPetModel.shouldGenerateExamples = true ∧
    wPetModel.schema = some wPet ∧
    wPetModel.parser = some wParser ∧
    wPet.oneOf = some [wCat, wDog] ∧
    [wCat, wDog] ≠ ([] : List Schema) ∧
    (([wCat, wDog] : List Schema).map Schema.title).Nodup ∧
    (∀ sub ∈ ([wCat, wDog] : List Schema), sub.oneOf = none ∨ sub.oneOf = some []) ∧
    (∀ sub ∈ ([wCat, wDog] : List Schema), ∃ fs,
        wSampleObj (getSchemaWithActiveDiscriminators sub) wPetModel.samplerOptions
          wParser.spec = .ok (.obj fs)) ∧
    (∃ exs, (wPetModel.examples wSampleObj).2 = .ok (some exs) ∧
      exs.map Prod.fst = ([wCat, wDog] : List Schema).map Schema.title ∧
      ∀ sub ∈ ([wCat, wDog] : List Schema), ∃ em, assocFind exs sub.title = some em ∧
        (∀ d, wPet.discriminatorProp = some d → d.isEmpty = false →
          em.value.getField d = some (.str sub.title))) := by
  have hflat : ∀ sub ∈ ([wCat, wDog] : List Schema),
      sub.oneOf = none ∨ sub.oneOf = some [] := by
    intro sub hs
    rcases List.mem_cons.mp hs with rfl | hs2
    · exact Or.inl rfl
    · rcases List.mem_cons.mp hs2 with rfl | hs3
      · exact Or.inl rfl
      · simp at hs3
  have hok : ∀ sub ∈ ([wCat, wDog] : List Schema), ∃ fs,
      wSampleObj (getSchemaWithActiveDiscriminators sub) wPetModel.samplerOptions
        wParser.spec = .ok (.obj fs) :=
    fun sub _ => ⟨[], rfl⟩
  exact ⟨rfl, rfl, rfl, rfl, rfl, by simp, by decide, hflat, hok,
    c1_poly_fanout wPetModel wSampleObj wPet wParser [wCat, wDog]
      rfl rfl rfl rfl rfl (by simp) (by decide) hflat hok⟩

/-- Witness for C2: plural static examples, and the singular fallback. -/
theorem c2_static_short_circuit_witness :
    wInfoStatic.examples = some [("a", JValue.null)] ∧
    (MediaTypeModel.make (fun _ => true) wParser "application/json" false wInfoStatic
        wOptions).examples wSampleObj =
      ([], .ok (some [("a", ExampleModel.make wParser .null "application/json" none)])) ∧
    wInfoSingular.examples = none ∧
    wInfoSingular.«example» = some (.str "sing") ∧
    (MediaTypeModel.make (fun _ => true) wParser "application/json" false wInfoSingular
        wOptions).examples wSampleObj =
      ([], .ok (some [("default",
        ExampleModel.make wParser (wParser.deref (.str "sing")) "application/json" none)])) := by
  refine ⟨rfl, ?_, rfl, rfl, ?_⟩
  · have h := (c2_static_short_circuit (fun _ => true) wParser "application/json" false
      wInfoStatic wOptions wSampleObj).1 [("a", .null)] rfl
    simpa using h
  · exact (c2_static_short_circuit (fun _ => true) wParser "application/json" false
      wInfoSingular wOptions wSampleObj).2 rfl (.str "sing") rfl

/-- Witness for C3 at a plain, non-polymorphic shape. -/
theorem c3_single_default_witness :
    wPlainModel.staticExamples = none ∧
    wPlainModel.shouldGenerateExamples = true ∧
    wPlainModel.schema = some wPlain ∧
    wPlainModel.parser = some wParser ∧
    (wPlain.oneOf = none ∨ wPlain.oneOf = some []) ∧
    wSampleObj (getSchemaWithActiveDiscriminators wPlain) wPlainModel.samplerOptions
      wParser.spec = .ok (.obj []) ∧
    (wPlainModel.examples wSampleObj).2 =
      .ok (some [("default",
        ExampleModel.make wParser (applyDiscriminatorValues (.obj []) wPlain)
          "application/json" none)]) :=
  ⟨rfl, rfl, rfl, rfl, Or.inl rfl, rfl,
    c3_single_default wPlainModel wSampleObj wPlain wParser (.obj [])
      rfl rfl rfl rfl (Or.inl rfl) rfl⟩

/-- Witness for C4: a concrete sampler invocation during a read. -/
theorem c4_sampler_options_witness :
    (Event.sampleCall (getSchemaWithActiveDiscriminators wPlain)
      wPlainModel.samplerOptions) ∈ (wPlainModel.examples wSampleObj).1 ∧
    (wPlainModel.samplerOptions.skipReadOnly = false ∧
     wPlainModel.samplerOptions.skipWriteOnly = !false ∧
     wPlainModel.samplerOptions.skipNonRequired = (false && wOptions.onlyRequiredInSamples) ∧
     wPlainModel.samplerOptions.maxSampleDepth = wOptions.generatedSamplesMaxDepth) := by
  have hmem : (Event.sampleCall (getSchemaWithActiveDiscriminators wPlain)
      wPlainModel.samplerOptions) ∈ (wPlainModel.examples wSampleObj).1 := by
    rw [examples_generating wPlainModel wSampleObj wPlain rfl rfl rfl
      (fun h => Option.noConfusion h)]
    rw [generateExamples_single wPlainModel wSampleObj wPlain wParser rfl rfl (Or.inl rfl)]
    simp [wSampleObj]
  exact ⟨hmem,
    c4_sampler_options (fun _ => true) wParser "application/json" false wInfoPlain wOptions
      wSampleObj _ hmem _ _ rfl⟩

/-- Witness for C5 at a non-JSON media type with schema and parser present. -/
theorem c5_missing_context_witness :
    wTextModel.staticExamples = none ∧
    (wTextModel.shouldGenerateExamples = false ∨ wTextModel.schema = none ∨
      wTextModel.parser = none) ∧
    wTextModel.examples wSampleObj = ([], .ok none) :=
  ⟨rfl, Or.inl rfl,
    c5_missing_context wTextModel wSampleObj rfl (Or.inl rfl)⟩

/-- Witness for C6 at the empty-variant-list fixture. -/
theorem c6_empty_variants_degenerate_witness :
    wEmptyModel.staticExamples = none ∧
    wEmptyModel.shouldGenerateExamples = true ∧
    wEmptyModel.schema = some wEmptyPoly ∧
    wEmptyModel.parser = some wParser ∧
    wEmptyPoly.oneOf = some [] ∧
    wSampleObj (getSchemaWithActiveDiscriminators wEmptyPoly) wEmptyModel.samplerOptions
      wParser.spec = .ok (.obj []) ∧
    wEmptyModel.examples wSampleObj =
      ((collectActiveDiscriminatorSelections wEmptyPoly).map Event.collectSel ++
        [.sampleCall (getSchemaWithActiveDiscriminators wEmptyPoly)
          wEmptyModel.samplerOptions],
       .ok (some [("default",
        ExampleModel.make wParser (applyDiscriminatorValues (.obj []) wEmptyPoly)
          "application/json" none)])) :=
  ⟨rfl, rfl, rfl, rfl, rfl, rfl,
    c6_empty_variants_degenerate wEmptyModel wSampleObj wEmptyPoly wParser (.obj [])
      rfl rfl rfl rfl rfl rfl⟩

/-- Witness for C7 at the Cat and Dog fixture. -/
theorem c7_collector_first_witness :
    wPetModel.staticExamples = none ∧
    wPetModel.shouldGenerateExamples = true ∧
    wPetModel.schema = some wPet ∧
    wPetModel.parser ≠ none ∧
    ((wPetModel.examples wSampleObj).1 =
      (collectActiveDiscriminatorSelections wPet).map Event.collectSel ++
        (wPetModel.generateExamples wSampleObj).1 ∧
    (∀ ev ∈ (wPetModel.generateExamples wSampleObj).1, ∃ r o, ev = .sampleCall r o) ∧
    (wPetModel.examples wSampleObj).2 = (wPetModel.generateExamples wSampleObj).2) :=
  ⟨rfl, rfl, rfl, fun h => Option.noConfusion h,
    c7_collector_first wPetModel wSampleObj wPet rfl rfl rfl
      (fun h => Option.noConfusion h)⟩

/-- Witness for C8: the sampler raising on the first variant. -/
theorem c8_sampler_error_propagates_witness :
    wPetModel.staticExamples = none ∧
    wPetModel.shouldGenerateExamples = true ∧
    wPetModel.schema = some wPet ∧
    wPetModel.parser = some wParser ∧
    wPet.oneOf = some ([] ++ wCat :: [wDog]) ∧
    wSampleErr (getSchemaWithActiveDiscriminators wCat) wPetModel.samplerOptions
      wParser.spec = .error "boom" ∧
    (wPetModel.examples wSampleErr).2 = .error "boom" := by
  refine ⟨rfl, rfl, rfl, rfl, rfl, rfl, ?_⟩
  have h := (c8_sampler_error_propagates wPetModel wSampleErr wPet wParser "boom"
    rfl rfl rfl rfl).2 [] wCat [wDog] rfl (by simp) rfl
  rw [h]

/-- Witness for C9 at the duplicate-tag fixture. -/
theorem c9_duplicate_tags_last_wins_witness :
    wDupModel.staticExamples = none ∧
    wDupModel.shouldGenerateExamples = true ∧
    wDupModel.schema = some wDupPet ∧
    wDupModel.parser = some wParser ∧
    wDupPet.oneOf = some [wSame1, wSame2] ∧
    [wSame1, wSame2] ≠ ([] : List Schema) ∧
    (∀ sub ∈ ([wSame1, wSame2] : List Schema), ∃ sv,
        wSampleObj (getSchemaWithActiveDiscriminators sub) wDupModel.samplerOptions
          wParser.spec = .ok sv) ∧
    (∃ exs, (wDupModel.examples wSampleObj).2 = .ok (some exs) ∧
      (exs.map Prod.fst).Nodup ∧
      exs.length = (([wSame1, wSame2] : List Schema).map Schema.title).dedup.length ∧
      ∀ k ∈ ([wSame1, wSame2] : List Schema).map Schema.title, ∃ sub,
        findLast k [wSame1, wSame2] = some sub ∧
        sub ∈ ([wSame1, wSame2] : List Schema) ∧ sub.title = k ∧
        assocFind exs k =
          some (variantArtifact wDupModel wParser wSampleObj wDupPet.discriminatorProp sub)) := by
  have hok : ∀ sub ∈ ([wSame1, wSame2] : List Schema), ∃ sv,
      wSampleObj (getSchemaWithActiveDiscriminators sub) wDupModel.samplerOptions
        wParser.spec = .ok sv :=
    fun sub _ => ⟨.obj [], rfl⟩
  exact ⟨rfl, rfl, rfl, rfl, rfl, by simp, hok,
    c9_duplicate_tags_last_wins wDupModel wSampleObj wDupPet wParser [wSame1, wSame2]
      rfl rfl rfl rfl rfl (by simp) hok⟩

/-- Witness for C10: non-JSON-like gating and plural precedence. -/
theorem c10_constructor_gating_witness :
    wTextModel.shouldGenerateExamples =
      (wInfoPlain.examples.isNone && wInfoPlain.«example».isNone && false) ∧
    (wInfoPlain.examples = none ∧ wInfoPlain.«example» = none ∧
      wTextModel.examples wSampleObj = ([], .ok none)) ∧
    (wInfoStatic.examples = some [("a", JValue.null)] ∧
      (MediaTypeModel.make (fun _ => true) wParser "application/json" false wInfoStatic
        wOptions).staticExamples =
        some [("a", ExampleModel.make wParser .null "application/json" none)]) := by
  refine ⟨(c10_constructor_gating (fun _ => false) wParser "text/plain" false wInfoPlain
    wOptions).1, ⟨rfl, rfl, ?_⟩, rfl, ?_⟩
  · exact (c10_constructor_gating (fun _ => false) wParser "text/plain" false wInfoPlain
      wOptions).2.1 rfl rfl rfl wSampleObj
  · have h := (c10_constructor_gating (fun _ => true) wParser "application/json" false
      wInfoStatic wOptions).2.2 [("a", .null)] rfl
    simpa using h
